import Mathlib

/-!
Verification development for the CSV-to-XML conversion engine
(repository ginjaninja78/CSV-to-XML-conversion).

The Go source is shallowly embedded: Go strings are modelled as Lean
`String` (sequences of unicode scalar values); Go's byte-level `len`/slicing
coincides with the character-level model on the ASCII data this converter
processes.  Go `map[string]string` values are modelled as association lists
(`List (String × String)`) together with the lookup-with-default-"" used by
the source, or as `String → Option _` functions where only lookup matters.
Go `int` counters that are provably non-negative (IDs, indices) are `Nat`;
configuration integers that the source compares against 0 are `Int`.
-/

namespace CsvToXml

/-! ## String helpers (Go standard library fragments used by the source) -/

/-- The apostrophe character (U+0027). -/
def apos : Char := Char.ofNat 39

/-- A one-character string holding the apostrophe (used by the Go
`fmt.Sprintf` messages that quote field names). -/
def sq : String := ⟨[apos]⟩

/-- Whitespace recognised by Go `strings.TrimSpace` (ASCII part; exotic
Unicode space classes are not modelled, the converter's data is ASCII). -/
def goIsSpace (c : Char) : Bool :=
  c = ' ' || c = '\t' || c = '\n' || c = '\x0b' || c = '\x0c' || c = '\r'

/-- Trim on both ends, Go `strings.TrimSpace`. -/
def trimSpaceList (l : List Char) : List Char :=
  ((l.dropWhile goIsSpace).reverse.dropWhile goIsSpace).reverse

def trimSpace (s : String) : String :=
  ⟨trimSpaceList s.data⟩

/-- Go `strings.TrimLeft` with an explicit cutset. -/
def trimLeftCutset (s cutset : String) : String :=
  ⟨s.data.dropWhile (fun c => c ∈ cutset.data)⟩

/-- Go `strings.TrimRight` with an explicit cutset. -/
def trimRightCutset (s cutset : String) : String :=
  ⟨(s.data.reverse.dropWhile (fun c => c ∈ cutset.data)).reverse⟩

/-- ASCII upper-casing, Go `strings.ToUpper` (ASCII fragment). -/
def goToUpper (s : String) : String := ⟨s.data.map Char.toUpper⟩

/-- ASCII lower-casing, Go `strings.ToLower` (ASCII fragment). -/
def goToLower (s : String) : String := ⟨s.data.map Char.toLower⟩

def digitsToNat (l : List Char) : Nat :=
  l.foldl (fun acc c => acc * 10 + (c.toNat - '0'.toNat)) 0

/-- Go `strconv.Atoi`: optional sign followed by one or more decimal digits,
nothing else.  (The int64 overflow error of the Go function is not modelled;
the converter only parses small configured lengths.) -/
def goAtoi (s : String) : Option Int :=
  match s.data with
  | [] => none
  | '+' :: ds =>
      if ds ≠ [] ∧ ds.all Char.isDigit then some (digitsToNat ds) else none
  | '-' :: ds =>
      if ds ≠ [] ∧ ds.all Char.isDigit then some (-(digitsToNat ds : Int)) else none
  | ds =>
      if ds.all Char.isDigit then some (digitsToNat ds) else none

/-- Go `PadLeft` helper from the transformer module: no-op when the string
already has at least the target length, otherwise left-fill with `padChar`. -/
def PadLeft (s : String) (length : Int) (padChar : Char) : String :=
  if length ≤ (s.length : Int) then s
  else ⟨List.replicate (length - (s.length : Int)).toNat padChar ++ s.data⟩

/-- Go `PadRight` helper from the transformer module. -/
def PadRight (s : String) (length : Int) (padChar : Char) : String :=
  if length ≤ (s.length : Int) then s
  else ⟨s.data ++ List.replicate (length - (s.length : Int)).toNat padChar⟩

/-! ## XML escaping (xmlwriter.escapeXML) -/

/-- Per-rune case of `escapeXML`: the five reserved XML characters become
entity references, every other rune is passed through. -/
def escapeXMLChar (c : Char) : List Char :=
  if c = '&' then "&amp;".data
  else if c = '<' then "&lt;".data
  else if c = '>' then "&gt;".data
  else if c = '"' then "&quot;".data
  else if c = apos then "&apos;".data
  else [c]

/-- `escapeXML` from `internal/xmlwriter/writer.go`: iterate the runes of the
string and write each through `escapeXMLChar`. -/
def escapeXML (s : String) : String :=
  ⟨s.data.flatMap escapeXMLChar⟩

/-- Modelled from the spec: the parse-back direction of the round-trip
property.  The repository emits XML but contains no XML reader; this is the
standard XML entity decoder for the five predefined entities, which is what
any conforming parser applies to the emitted text. -/
def unescapeXMLList : List Char → List Char
  | [] => []
  | c :: rest =>
    if c = '&' ∧ rest.take 4 = "amp;".data then '&' :: unescapeXMLList (rest.drop 4)
    else if c = '&' ∧ rest.take 3 = "lt;".data then '<' :: unescapeXMLList (rest.drop 3)
    else if c = '&' ∧ rest.take 3 = "gt;".data then '>' :: unescapeXMLList (rest.drop 3)
    else if c = '&' ∧ rest.take 5 = "quot;".data then '"' :: unescapeXMLList (rest.drop 5)
    else if c = '&' ∧ rest.take 5 = "apos;".data then apos :: unescapeXMLList (rest.drop 5)
    else c :: unescapeXMLList rest
  termination_by l => l.length
  decreasing_by
  all_goals simp [List.length_drop] <;> omega

def unescapeXML (s : String) : String :=
  ⟨unescapeXMLList s.data⟩

lemma escapeXMLChar_apos : escapeXMLChar apos = "&apos;".data := rfl

lemma unescape_cons_of_ne (c : Char) (hc : c ≠ '&') (r : List Char) :
    unescapeXMLList (c :: r) = c :: unescapeXMLList r := by
  simp [unescapeXMLList, hc]

lemma unescape_escape_list (l : List Char) :
    unescapeXMLList (l.flatMap escapeXMLChar) = l := by
  induction l with
  | nil => simp [unescapeXMLList]
  | cons c rest ih =>
    rw [List.flatMap_cons]
    by_cases h1 : c = '&'
    · subst h1; simpa [escapeXMLChar, unescapeXMLList] using ih
    · by_cases h2 : c = '<'
      · subst h2; simpa [escapeXMLChar, unescapeXMLList] using ih
      · by_cases h3 : c = '>'
        · subst h3; simpa [escapeXMLChar, unescapeXMLList] using ih
        · by_cases h4 : c = '"'
          · subst h4; simpa [escapeXMLChar, unescapeXMLList] using ih
          · by_cases h5 : c = apos
            · subst h5
              rw [escapeXMLChar_apos]
              simpa [unescapeXMLList] using ih
            · rw [escapeXMLChar]
              simp only [h1, h2, h3, h4, h5, if_false]
              rw [List.singleton_append, unescape_cons_of_ne c h1, ih]

/-! ## Data model (internal/xlsxparser, internal/config, converter types) -/

/-- One row of CSV data after parsing: the entries of the Go
`map[string]string`.  Lookup with the zero-value default "" mirrors Go map
indexing. -/
abbrev Row := List (String × String)

def lookupField (r : Row) (k : String) : String :=
  (r.lookup k).getD ""

/-- xlsxparser.FieldMapping (the fields the conversion engine reads). -/
structure FieldMapping where
  OldHeader : String
  XMLTag : String
  ParentTag : String
  DataType : String
  MaxLength : Int
  RequiredType : String
  ConditionalRule : String
  DefaultValue : String
  Order : Int
deriving DecidableEq, Repr

/-- xlsxparser.Schema.  The Go `map[string]*FieldMapping` is modelled as a
lookup function (nil pointer ↦ `none`). -/
structure Schema where
  FieldMappings : String → Option FieldMapping
  TransactionFields : List String
  LineItemFields : List String
  CashbookFields : List String
  XMLRootElement : String
  XMLTransactionElement : String
  XMLLineItemElement : String

def Schema.GetFieldMapping (s : Schema) (oldHeader : String) : Option FieldMapping :=
  s.FieldMappings oldHeader

/-- config.StaticField. -/
structure StaticField where
  XMLTag : String
  Value : String
  ParentTag : String
deriving DecidableEq, Repr

/-- config.TransformationAction; the Go field `Type` is spelled `Type'`
because `Type` is a Lean keyword.  `LookupTable` is the entry list of the Go
map (keys unique). -/
structure TransformationAction where
  Type' : String
  Value : String
  Find : String
  Condition : String
  LookupTable : List (String × String)
deriving DecidableEq, Repr

structure TransformationRule where
  Field : String
  Actions : List TransformationAction
deriving DecidableEq, Repr

structure TransactionGrouping where
  GroupByField : String
  SortByField : String
  SortOrder : String
deriving DecidableEq, Repr

/-- config.DepartmentConfig (the fields the engine reads). -/
structure DepartmentConfig where
  TransactionGrouping : TransactionGrouping
  TransformationRules : List TransformationRule
  StaticFields : List StaticField

/-- converter.LineItem.  `ID` is the line-item number assigned by
`groupTransactions` (a counter starting at 1, hence `Nat`). -/
structure LineItem where
  ID : Nat
  Fields : Row
deriving DecidableEq, Repr

/-- converter.Transaction. -/
structure Transaction where
  ID : Nat
  GroupKey : String
  LineItems : List LineItem
deriving DecidableEq, Repr

def totalLineItems (ts : List Transaction) : Nat :=
  (ts.map (fun t => t.LineItems.length)).sum

/-! ## XML document structure (xmlwriter) -/

/-- xmlwriter.XMLElement: name, attributes, character data, children. -/
inductive XMLElement where
  | mk (name : String) (attributes : List (String × String)) (value : String)
       (children : List XMLElement)

def XMLElement.name : XMLElement → String
  | .mk n _ _ _ => n

def XMLElement.attributes : XMLElement → List (String × String)
  | .mk _ a _ _ => a

def XMLElement.value : XMLElement → String
  | .mk _ _ v _ => v

def XMLElement.children : XMLElement → List XMLElement
  | .mk _ _ _ c => c

/-- xmlwriter.XMLDocument: the root element of the output. -/
structure XMLDocument where
  name : String
  attributes : List (String × String)
  children : List XMLElement

/-- xmlwriter.GenerateOptions (fields read during document building). -/
structure GenerateOptions where
  Indent : String
  IncludeXMLDeclaration : Bool
  XMLVersion : String
  Encoding : String
  RootAttributes : List (String × String)
  LineItemNumberingGlobal : Bool
  TransactionIndexAttribute : String
  LineItemIndexAttribute : String

/-- xmlwriter.DefaultGenerateOptions. -/
def DefaultGenerateOptions : GenerateOptions where
  Indent := "  "
  IncludeXMLDeclaration := true
  XMLVersion := "1.0"
  Encoding := "UTF-8"
  RootAttributes := []
  LineItemNumberingGlobal := true
  TransactionIndexAttribute := "n"
  LineItemIndexAttribute := "n"

/-- xmlwriter.createSimpleElement. -/
def createSimpleElement (name value : String) : XMLElement :=
  .mk name [] value []

/-- The comparison used by xmlwriter.getOrderedFields: fields with mappings
compare by `Order`; a missing mapping compares as not-less. -/
def fieldOrderLess (schema : Schema) (a b : String) : Bool :=
  match schema.GetFieldMapping a, schema.GetFieldMapping b with
  | some ma, some mb => decide (ma.Order < mb.Order)
  | _, _ => false

def insertByOrder (le : String → String → Bool) (x : String) : List String → List String
  | [] => [x]
  | y :: ys => if le x y then x :: y :: ys else y :: insertByOrder le x ys

def sortByOrder (le : String → String → Bool) : List String → List String
  | [] => []
  | x :: xs => insertByOrder le x (sortByOrder le xs)

/-- xmlwriter.getOrderedFields.  The Go source uses `sort.Slice`, an
unspecified unstable sort; it is modelled here as an insertion sort over the
complement of the source's strict less-than — one admissible outcome.  No
theorem below depends on the resulting order. -/
def getOrderedFields (fields : List String) (schema : Schema) : List String :=
  sortByOrder (fun a b => !(fieldOrderLess schema b a)) fields

/-- The schema-field emission loops of xmlwriter.buildTransactionElement
(lines 269-280) and xmlwriter.buildLineItemElement (lines 348-366): walk the
ordered headers, skip headers without a mapping, and emit a simple element
exactly when the looked-up value is non-empty or the mapping is required. -/
def emitFields (get : String → Option FieldMapping) (fields : String → String) :
    List String → List XMLElement
  | [] => []
  | h :: hs =>
    match get h with
    | none => emitFields get fields hs
    | some m =>
      if fields h ≠ "" ∨ m.RequiredType = "required" then
        createSimpleElement m.XMLTag (fields h) :: emitFields get fields hs
      else
        emitFields get fields hs

/-- Static fields attached under a given parent tag (the
`strings.ToLower(staticField.ParentTag) == parent` filters of the writer). -/
def staticElems (parent : String) (dept : DepartmentConfig) : List XMLElement :=
  dept.StaticFields.filterMap fun sf =>
    if goToLower sf.ParentTag = parent then some (createSimpleElement sf.XMLTag sf.Value)
    else none

/-- xmlwriter.buildLineItemElement.  `ctr` is the value of the
`globalLineItemIndex` counter at the call; the emitted index attribute uses
the counter when global numbering is on and the line item's own `ID`
otherwise. -/
def buildLineItemElement (li : LineItem) (schema : Schema) (dept : DepartmentConfig)
    (opts : GenerateOptions) (ctr : Nat) : XMLElement :=
  let index := if opts.LineItemNumberingGlobal then ctr else li.ID
  .mk schema.XMLLineItemElement [(opts.LineItemIndexAttribute, toString index)] ""
    (staticElems "lineitem" dept ++
      emitFields schema.GetFieldMapping (lookupField li.Fields)
        (getOrderedFields schema.LineItemFields schema))

/-- The line-item loop of xmlwriter.buildTransactionElement (lines 283-298):
build each line-item element, incrementing the shared counter after each one
only when global numbering is on.  Returns the elements and the counter
value after the loop. -/
def buildLineItemsLoop (schema : Schema) (dept : DepartmentConfig)
    (opts : GenerateOptions) : List LineItem → Nat → List XMLElement × Nat
  | [], ctr => ([], ctr)
  | li :: rest, ctr =>
    let e := buildLineItemElement li schema dept opts ctr
    let ctr2 := if opts.LineItemNumberingGlobal then ctr + 1 else ctr
    let res := buildLineItemsLoop schema dept opts rest ctr2
    (e :: res.1, res.2)

/-- The transaction-level schema fields: sourced from the first line item
(Go lines 263-281); none are emitted when the transaction has no line
items. -/
def transactionSchemaElems (t : Transaction) (schema : Schema) : List XMLElement :=
  match t.LineItems with
  | [] => []
  | first :: _ =>
    emitFields schema.GetFieldMapping (lookupField first.Fields)
      (getOrderedFields schema.TransactionFields schema)

/-- xmlwriter.buildTransactionElement: transaction element carrying its `ID`
as index attribute; children are static transaction fields, then schema
transaction fields, then the line-item elements.  Returns the element and
the updated global counter. -/
def buildTransactionElement (t : Transaction) (schema : Schema)
    (dept : DepartmentConfig) (opts : GenerateOptions) (ctr : Nat) :
    XMLElement × Nat :=
  let res := buildLineItemsLoop schema dept opts t.LineItems ctr
  (.mk schema.XMLTransactionElement
    [(opts.TransactionIndexAttribute, toString t.ID)] ""
    (staticElems "transaction" dept ++ transactionSchemaElems t schema ++ res.1),
   res.2)

/-- The transaction loop of xmlwriter.buildDocument, threading the
`globalLineItemIndex` counter. -/
def buildTransactionsLoop (schema : Schema) (dept : DepartmentConfig)
    (opts : GenerateOptions) : List Transaction → Nat → List XMLElement × Nat
  | [], ctr => ([], ctr)
  | t :: rest, ctr =>
    let res := buildTransactionElement t schema dept opts ctr
    let res2 := buildTransactionsLoop schema dept opts rest res.2
    (res.1 :: res2.1, res2.2)

/-- xmlwriter.buildDocument: root element with root attributes, cashbook
static fields, then the transaction elements; `globalLineItemIndex` starts
at 1. -/
def buildDocument (ts : List Transaction) (schema : Schema)
    (dept : DepartmentConfig) (opts : GenerateOptions) : XMLDocument :=
  { name := schema.XMLRootElement
    attributes := opts.RootAttributes
    children := staticElems "cashbook" dept ++
      (buildTransactionsLoop schema dept opts ts 1).1 }

/-- The line-item elements of the whole document in document order, with the
same counter threading as `buildTransactionsLoop`/`buildDocument`. -/
def allLineItemElements (schema : Schema) (dept : DepartmentConfig)
    (opts : GenerateOptions) : List Transaction → Nat → List XMLElement
  | [], _ => []
  | t :: rest, ctr =>
    let res := buildLineItemsLoop schema dept opts t.LineItems ctr
    res.1 ++ allLineItemElements schema dept opts rest res.2

/-- The value of an element's (single) index attribute. -/
def elementIndexAttr (e : XMLElement) : String :=
  match e.attributes with
  | [] => ""
  | a :: _ => a.2

/-- The emitted line-item index attributes of a document, in document
order. -/
def docLineItemIndexAttrs (schema : Schema) (dept : DepartmentConfig)
    (opts : GenerateOptions) (ts : List Transaction) : List String :=
  (allLineItemElements schema dept opts ts 1).map elementIndexAttr

/-! ## XML serialization (xmlwriter.writeElement) -/

/-- The attribute text written by xmlwriter.writeElement: one
` name="escapedValue"` run per attribute, attribute values escaped with
`escapeXML`. -/
def attrText (attrs : List (String × String)) : String :=
  attrs.foldl (fun acc a => acc ++ " " ++ a.1 ++ "=\"" ++ escapeXML a.2 ++ "\"") ""

mutual

/-- xmlwriter.writeElement: indentation, opening tag with escaped
attributes, then self-closing when there is neither value nor children,
otherwise the escaped character data (which takes precedence over children)
or the serialized children. -/
def writeElement (indent : String) (e : XMLElement) (level : Nat) : String :=
  match e with
  | .mk name attrs value children =>
    let ind := String.join (List.replicate level indent)
    let openTag := ind ++ "<" ++ name ++ attrText attrs
    if children.length = 0 ∧ value = "" then openTag ++ "/>\n"
    else
      openTag ++ ">" ++
        (if value ≠ "" then escapeXML value
         else "\n" ++ writeElements indent children (level + 1) ++ ind) ++
      "</" ++ name ++ ">\n"

def writeElements (indent : String) (es : List XMLElement) (level : Nat) : String :=
  match es with
  | [] => ""
  | e :: rest => writeElement indent e level ++ writeElements indent rest level

end

/-! ## Record grouping (converter.groupTransactions) -/

/-- One iteration of the first pass of groupTransactions (lines 1016-1022):
record the key in order of first occurrence and append the row to its
group. -/
def groupStep (f : String) (st : List String × (String → List Row)) (r : Row) :
    List String × (String → List Row) :=
  let key := lookupField r f
  let ord := if key ∈ st.1 then st.1 else st.1 ++ [key]
  (ord, fun k => if k = key then st.2 k ++ [r] else st.2 k)

/-- The first pass of groupTransactions: group order and group contents. -/
def buildGroups (f : String) (rows : List Row) :
    List String × (String → List Row) :=
  rows.foldl (groupStep f) ([], fun _ => [])

/-- The inner loop of the second pass: line items numbered by the global
`lineItemCounter`. -/
def numberFrom : Nat → List Row → List LineItem
  | _, [] => []
  | ctr, r :: rest => ⟨ctr, r⟩ :: numberFrom (ctr + 1) rest

/-- The second pass of groupTransactions (lines 1024-1045): one transaction
per recorded key, transaction IDs counting from `i`, line-item IDs counting
globally from `ctr`. -/
def buildFromGroups (groups : String → List Row) :
    List String → Nat → Nat → List Transaction
  | [], _, _ => []
  | k :: ks, i, ctr =>
    let rs := groups k
    ⟨i, k, numberFrom ctr rs⟩ :: buildFromGroups groups ks (i + 1) (ctr + rs.length)

/-- converter.groupTransactions: with an empty grouping field every row
becomes its own transaction (IDs `i+1`); otherwise the two-pass grouping
with transaction IDs from 1 and a single global line-item counter from 1. -/
def groupTransactions (f : String) (rows : List Row) : List Transaction :=
  if f = "" then
    rows.enum.map fun p => ⟨p.1 + 1, "", [⟨p.1 + 1, p.2⟩]⟩
  else
    let bg := buildGroups f rows
    buildFromGroups bg.2 bg.1 1 1

/-- Declarative description of "distinct values in order of first
appearance": keep the head, drop its later duplicates, recurse. -/
def firstOccurrences : List String → List String
  | [] => []
  | k :: ks => k :: firstOccurrences (ks.filter (fun x => x ≠ k))
  termination_by l => l.length
  decreasing_by
  simp
  exact Nat.lt_succ_of_le (List.length_filter_le _ _)

/-! ## Grouping lemmas -/

lemma numberFrom_map_fields (ctr : Nat) (rs : List Row) :
    (numberFrom ctr rs).map (fun li => li.Fields) = rs := by
  induction rs generalizing ctr with
  | nil => rfl
  | cons r rest ih => simp [numberFrom, ih]

lemma numberFrom_map_id (ctr : Nat) (rs : List Row) :
    (numberFrom ctr rs).map (fun li => li.ID) = List.range' ctr rs.length := by
  induction rs generalizing ctr with
  | nil => rfl
  | cons r rest ih => simp [numberFrom, ih, List.range'_succ]

lemma numberFrom_length (ctr : Nat) (rs : List Row) :
    (numberFrom ctr rs).length = rs.length := by
  induction rs generalizing ctr with
  | nil => rfl
  | cons r rest ih => simp [numberFrom, ih]

lemma foldl_groupStep_order (f : String) (rows : List Row) :
    ∀ (acc : List String) (g : String → List Row),
      (rows.foldl (groupStep f) (acc, g)).1 =
        acc ++ firstOccurrences ((rows.map (fun r => lookupField r f)).filter
          (fun x => !(decide (x ∈ acc)))) := by
  induction rows with
  | nil => intro acc g; simp [firstOccurrences]
  | cons r rest ih =>
    intro acc g
    simp only [List.foldl_cons, List.map_cons, List.filter_cons]
    by_cases hk : lookupField r f ∈ acc
    · have hst : groupStep f (acc, g) r =
          (acc, fun k => if k = lookupField r f then g k ++ [r] else g k) := by
        simp [groupStep, hk]
      rw [hst, ih]
      simp [hk]
    · have hst : groupStep f (acc, g) r =
          (acc ++ [lookupField r f],
           fun k => if k = lookupField r f then g k ++ [r] else g k) := by
        simp [groupStep, hk]
      rw [hst, ih]
      have hkb : (!decide (lookupField r f ∈ acc)) = true := by simp [hk]
      rw [if_pos hkb, firstOccurrences]
      conv_rhs => rw [← List.singleton_append, ← List.append_assoc]
      congr 1
      congr 1
      rw [List.filter_filter]
      apply List.filter_congr
      intro x _
      by_cases hx : x ∈ acc <;> by_cases hxk : x = lookupField r f <;>
        simp [hx, hxk, List.mem_append]

lemma foldl_groupStep_groups (f : String) (rows : List Row) :
    ∀ (acc : List String) (g : String → List Row) (k : String),
      (rows.foldl (groupStep f) (acc, g)).2 k =
        g k ++ rows.filter (fun r => lookupField r f == k) := by
  induction rows with
  | nil => intro acc g k; simp
  | cons r rest ih =>
    intro acc g k
    simp only [List.foldl_cons, List.filter_cons]
    rw [show rest.foldl (groupStep f) (groupStep f (acc, g) r) =
        rest.foldl (groupStep f)
          ((if lookupField r f ∈ acc then acc else acc ++ [lookupField r f]),
           fun k => if k = lookupField r f then g k ++ [r] else g k) from rfl]
    rw [ih]
    by_cases hk : k = lookupField r f
    · subst hk; simp
    · have : (lookupField r f == k) = false := by
        simp [Ne.symm hk]
      simp [hk, this]

lemma buildGroups_order (f : String) (rows : List Row) :
    (buildGroups f rows).1 = firstOccurrences (rows.map (fun r => lookupField r f)) := by
  rw [buildGroups, foldl_groupStep_order]
  simp

lemma buildGroups_groups (f : String) (rows : List Row) (k : String) :
    (buildGroups f rows).2 k = rows.filter (fun r => lookupField r f == k) := by
  rw [buildGroups, foldl_groupStep_groups]
  simp

lemma mem_firstOccurrences (l : List String) (x : String) :
    x ∈ firstOccurrences l ↔ x ∈ l := by
  induction l using firstOccurrences.induct with
  | case1 => simp [firstOccurrences]
  | case2 k ks ih =>
    rw [firstOccurrences]
    simp only [List.mem_cons, ih, List.mem_filter]
    by_cases hx : x = k <;> simp [hx]

lemma nodup_firstOccurrences (l : List String) : (firstOccurrences l).Nodup := by
  induction l using firstOccurrences.induct with
  | case1 => simp [firstOccurrences]
  | case2 k ks ih =>
    rw [firstOccurrences]
    refine List.nodup_cons.2 ⟨?_, ih⟩
    rw [mem_firstOccurrences]
    simp

lemma buildFromGroups_map_groupKey (g : String → List Row) (ks : List String) :
    ∀ (i ctr : Nat), (buildFromGroups g ks i ctr).map (fun t => t.GroupKey) = ks := by
  induction ks with
  | nil => intro i ctr; rfl
  | cons k rest ih => intro i ctr; simp [buildFromGroups, ih]

lemma buildFromGroups_mem_fields (g : String → List Row) (ks : List String) :
    ∀ (i ctr : Nat), ∀ t ∈ buildFromGroups g ks i ctr,
      t.LineItems.map (fun li => li.Fields) = g t.GroupKey := by
  induction ks with
  | nil => intro i ctr t ht; simp [buildFromGroups] at ht
  | cons k rest ih =>
    intro i ctr t ht
    simp only [buildFromGroups, List.mem_cons] at ht
    rcases ht with rfl | ht
    · simpa using numberFrom_map_fields _ _
    · exact ih _ _ t ht

lemma buildFromGroups_bind_ids (g : String → List Row) (ks : List String) :
    ∀ (i ctr : Nat),
      (buildFromGroups g ks i ctr).flatMap (fun t => t.LineItems.map (fun li => li.ID)) =
        List.range' ctr ((ks.map (fun k => (g k).length)).sum) := by
  induction ks with
  | nil => intro i ctr; rfl
  | cons k rest ih =>
    intro i ctr
    simp only [buildFromGroups, List.flatMap_cons, List.map_cons, List.sum_cons]
    rw [numberFrom_map_id, ih, List.range'_append_1]
    congr 1
    omega

/-! ## Line-item numbering lemmas -/

lemma buildLineItemsLoop_attrs (schema : Schema) (dept : DepartmentConfig)
    (opts : GenerateOptions) (lis : List LineItem) : ∀ ctr : Nat,
    ((buildLineItemsLoop schema dept opts lis ctr).1).map elementIndexAttr =
      if opts.LineItemNumberingGlobal then (List.range' ctr lis.length).map toString
      else lis.map (fun li => toString li.ID) := by
  induction lis with
  | nil => intro ctr; by_cases hg : opts.LineItemNumberingGlobal <;> simp [buildLineItemsLoop, hg]
  | cons li rest ih =>
    intro ctr
    by_cases hg : opts.LineItemNumberingGlobal <;>
      simp [buildLineItemsLoop, buildLineItemElement, elementIndexAttr,
        XMLElement.attributes, hg, ih, List.range'_succ]

lemma allLineItemElements_attrs (schema : Schema) (dept : DepartmentConfig)
    (opts : GenerateOptions) (ts : List Transaction) : ∀ ctr : Nat,
    (allLineItemElements schema dept opts ts ctr).map elementIndexAttr =
      if opts.LineItemNumberingGlobal then
        (List.range' ctr (totalLineItems ts)).map toString
      else ts.flatMap (fun t => t.LineItems.map (fun li => toString li.ID)) := by
  induction ts with
  | nil => intro ctr; by_cases hg : opts.LineItemNumberingGlobal <;>
      simp [allLineItemElements, totalLineItems, hg]
  | cons t rest ih =>
    intro ctr
    by_cases hg : opts.LineItemNumberingGlobal
    · have hctr : (buildLineItemsLoop schema dept opts t.LineItems ctr).2 =
          ctr + t.LineItems.length := by
        clear ih
        induction t.LineItems generalizing ctr with
        | nil => simp [buildLineItemsLoop]
        | cons li lrest lih => simp [buildLineItemsLoop, hg, lih]; omega
      simp only [allLineItemElements, List.map_append, buildLineItemsLoop_attrs,
        hg, if_true, ih, hctr, totalLineItems, List.map_cons, List.sum_cons]
      rw [← List.map_append, List.range'_append_1]
      congr 2
      omega
    · have hctr : (buildLineItemsLoop schema dept opts t.LineItems ctr).2 = ctr := by
        clear ih
        induction t.LineItems generalizing ctr with
        | nil => simp [buildLineItemsLoop]
        | cons li lrest lih => simp [buildLineItemsLoop, hg, lih]
      simp [allLineItemElements, buildLineItemsLoop_attrs, hg, ih, hctr]

/-! ## Sample data for concrete evaluations -/

def sampleRows : List Row :=
  [[("k", "A"), ("v", "1")], [("k", "A"), ("v", "2")], [("k", "B"), ("v", "3")]]

def emptySchema : Schema where
  FieldMappings := fun _ => none
  TransactionFields := []
  LineItemFields := []
  CashbookFields := []
  XMLRootElement := "cashbook"
  XMLTransactionElement := "transaction"
  XMLLineItemElement := "lineItem"

def sampleDept : DepartmentConfig where
  TransactionGrouping := { GroupByField := "k", SortByField := "", SortOrder := "" }
  TransformationRules := []
  StaticFields := []

def optsGlobalOff : GenerateOptions :=
  { DefaultGenerateOptions with LineItemNumberingGlobal := false }

/-! ## Claim C2 -/

/-- C2: for every ordered sequence of flat records and every non-empty
`groupByField`, grouping produces exactly one Transaction per distinct
group-key value (keys are `Nodup` and cover exactly the observed keys),
Transactions appear in order of first appearance of their key, and each
Transaction's line items are exactly its records in input order; with an
empty `groupByField` every record becomes its own single-line-item
Transaction. -/
theorem grouping_partitions_preserving_order (f : String) (rows : List Row) :
    (f = "" →
      (groupTransactions f rows).map (fun t => t.LineItems.map (fun li => li.Fields)) =
        rows.map (fun r => [r]) ∧
      (groupTransactions f rows).length = rows.length) ∧
    (f ≠ "" →
      (groupTransactions f rows).map (fun t => t.GroupKey) =
        firstOccurrences (rows.map (fun r => lookupField r f)) ∧
      ((groupTransactions f rows).map (fun t => t.GroupKey)).Nodup ∧
      (∀ k : String, k ∈ (groupTransactions f rows).map (fun t => t.GroupKey) ↔
        k ∈ rows.map (fun r => lookupField r f)) ∧
      (∀ t ∈ groupTransactions f rows,
        t.LineItems.map (fun li => li.Fields) =
          rows.filter (fun r => lookupField r f == t.GroupKey))) := by
  constructor
  · intro hf
    subst hf
    rw [groupTransactions, if_pos rfl]
    constructor
    · rw [List.map_map]
      have : ((fun t : Transaction => t.LineItems.map (fun li => li.Fields)) ∘
          (fun p : Nat × Row => (⟨p.1 + 1, "", [⟨p.1 + 1, p.2⟩]⟩ : Transaction))) =
          (fun r : Row => [r]) ∘ Prod.snd := by
        funext p
        rfl
      rw [this, ← List.map_map, List.enum_map_snd]
    · simp
  · intro hf
    have hgt : groupTransactions f rows =
        buildFromGroups (buildGroups f rows).2 (buildGroups f rows).1 1 1 := by
      rw [groupTransactions, if_neg hf]
    have hkeys : (groupTransactions f rows).map (fun t => t.GroupKey) =
        firstOccurrences (rows.map (fun r => lookupField r f)) := by
      rw [hgt, buildFromGroups_map_groupKey, buildGroups_order]
    refine ⟨hkeys, ?_, ?_, ?_⟩
    · rw [hkeys]; exact nodup_firstOccurrences _
    · intro k; rw [hkeys, mem_firstOccurrences]
    · intro t ht
      rw [hgt] at ht
      have := buildFromGroups_mem_fields (buildGroups f rows).2 (buildGroups f rows).1 1 1 t ht
      rw [this, buildGroups_groups]

/-- C2 witness: concrete three-row input grouped by "k"; the grouped keys
are the distinct keys in order of first appearance, concretely
["A", "B"]. -/
theorem grouping_partitions_preserving_order_witness :
    (groupTransactions "k" sampleRows).map (fun t => t.GroupKey) =
      firstOccurrences (sampleRows.map (fun r => lookupField r "k")) ∧
    firstOccurrences (sampleRows.map (fun r => lookupField r "k")) = ["A", "B"] :=
  ⟨((grouping_partitions_preserving_order "k" sampleRows).2 (by decide)).1,
   by simp [firstOccurrences, sampleRows, lookupField]⟩

/-! ## Claim C1 -/

/-- C1: concrete unit of work with two transactions (line-item counts 2 and
1).  With global numbering enabled the emitted line-item index attributes
are "1","2","3" as claimed; with global numbering disabled they are also
"1","2","3" — they do NOT restart at 1 for the second transaction (which
would give "1","2","1"), because `groupTransactions` assigns globally
incremented line-item IDs and `buildLineItemElement` reuses them when the
global option is off, contradicting the option's own documentation. -/
theorem lineItem_indices_do_not_restart_per_transaction :
    docLineItemIndexAttrs emptySchema sampleDept DefaultGenerateOptions
      (groupTransactions "k" sampleRows) = ["1", "2", "3"] ∧
    docLineItemIndexAttrs emptySchema sampleDept optsGlobalOff
      (groupTransactions "k" sampleRows) = ["1", "2", "3"] ∧
    (groupTransactions "k" sampleRows).map (fun t => t.LineItems.length) = [2, 1] ∧
    (["1", "2", "3"] : List String) ≠ ["1", "2", "1"] := by
  refine ⟨by decide, by decide, by decide, by decide⟩

/-! ## Condition evaluator (validation.evaluateCondition)

The Go evaluator tries a fixed sequence of `regexp.FindStringSubmatch`
calls.  Each regex is embedded as a deterministic matcher: because a `\w+`
group is always followed by a token that cannot start with a word
character, the greedy maximal word run is the only candidate at each start
position, so no backtracking arises and `FindStringSubmatch` is exactly
"first start position, maximal runs". -/

/-- RE2 `\w`. -/
def isWordChar (c : Char) : Bool := c.isAlphanum || c = '_'

/-- RE2 `\s` (which is `[\t\n\f\r ]`). -/
def reIsSpace (c : Char) : Bool :=
  c = ' ' || c = '\t' || c = '\n' || c = '\x0c' || c = '\r'

/-- Leftmost-match search: try the matcher at every start position, in
order. -/
def scanFind {α : Type} (tryAt : List Char → Option α) : List Char → Option α
  | [] => tryAt []
  | c :: rest =>
    match tryAt (c :: rest) with
    | some x => some x
    | none => scanFind tryAt rest

/-- A single-quoted literal `'([^']*)'` at the head of the input. -/
def matchQuoted (l : List Char) : Option (List Char) :=
  match l with
  | [] => none
  | q :: r =>
    if q = apos then
      let v := r.takeWhile (fun c => c ≠ apos)
      match r.dropWhile (fun c => c ≠ apos) with
      | q2 :: _ => if q2 = apos then some v else none
      | [] => none
    else none

/-- The `(\w+)\s*XY\s*'([^']*)'` shape shared by the `==` and `!=`
patterns. -/
def matchEqLikeAt (c1 c2 : Char) (l : List Char) : Option (String × String) :=
  let w := l.takeWhile isWordChar
  if w.isEmpty then none
  else
    match (l.dropWhile isWordChar).dropWhile reIsSpace with
    | a :: b :: r2 =>
      if a = c1 ∧ b = c2 then
        match matchQuoted (r2.dropWhile reIsSpace) with
        | some v => some (⟨w⟩, ⟨v⟩)
        | none => none
      else none
    | _ => none

/-- The `(\w+)\s*X\s*(\d+(?:\.\d+)?)` shape shared by the `>` and `<`
patterns. -/
def matchNumCmpAt (opc : Char) (l : List Char) : Option (String × String) :=
  let w := l.takeWhile isWordChar
  if w.isEmpty then none
  else
    match (l.dropWhile isWordChar).dropWhile reIsSpace with
    | a :: r2 =>
      if a = opc then
        let r3 := r2.dropWhile reIsSpace
        let d1 := r3.takeWhile Char.isDigit
        if d1.isEmpty then none
        else
          match r3.dropWhile Char.isDigit with
          | '.' :: r5 =>
            let d2 := r5.takeWhile Char.isDigit
            if d2.isEmpty then some (⟨w⟩, ⟨d1⟩) else some (⟨w⟩, ⟨d1 ++ '.' :: d2⟩)
          | _ => some (⟨w⟩, ⟨d1⟩)
      else none
    | _ => none

/-- The `(\w+)\s+kw\s+'([^']*)'` shape of the `starts_with` pattern. -/
def matchKeywordQuotedAt (kw : List Char) (l : List Char) : Option (String × String) :=
  let w := l.takeWhile isWordChar
  if w.isEmpty then none
  else
    let r1 := l.dropWhile isWordChar
    if (r1.takeWhile reIsSpace).isEmpty then none
    else
      let r2 := r1.dropWhile reIsSpace
      if kw.isPrefixOf r2 then
        let r3 := r2.drop kw.length
        if (r3.takeWhile reIsSpace).isEmpty then none
        else
          match matchQuoted (r3.dropWhile reIsSpace) with
          | some v => some (⟨w⟩, ⟨v⟩)
          | none => none
      else none

/-- The `(\w+)\s+kw` shape of the `is_empty` / `is_not_empty` patterns. -/
def matchKeywordAt (kw : List Char) (l : List Char) : Option String :=
  let w := l.takeWhile isWordChar
  if w.isEmpty then none
  else
    let r1 := l.dropWhile isWordChar
    if (r1.takeWhile reIsSpace).isEmpty then none
    else if kw.isPrefixOf (r1.dropWhile reIsSpace) then some ⟨w⟩ else none

/-- An exact decimal value `num * 10 ^ exp`, the result of parsing a
numeric literal. -/
structure DecValue where
  num : Int
  exp : Int
deriving DecidableEq, Repr

def tenPow : Nat → Int
  | 0 => 1
  | n + 1 => 10 * tenPow n

def DecValue.toScaled (a : DecValue) (m : Int) : Int :=
  a.num * tenPow (a.exp - m).toNat

/-- Exact order on decimal values (cross-scaling to the smaller
exponent). -/
def decValueLt (a b : DecValue) : Bool :=
  let m := min a.exp b.exp
  decide (a.toScaled m < b.toScaled m)

def parseExponentTail (l : List Char) (mant : Int) (exp : Int) : Option DecValue :=
  match l with
  | [] => some ⟨mant, exp⟩
  | e :: r =>
    if e = 'e' ∨ e = 'E' then
      match r with
      | '+' :: ds =>
        if ds ≠ [] ∧ ds.all Char.isDigit then some ⟨mant, exp + digitsToNat ds⟩
        else none
      | '-' :: ds =>
        if ds ≠ [] ∧ ds.all Char.isDigit then some ⟨mant, exp - digitsToNat ds⟩
        else none
      | ds =>
        if ds ≠ [] ∧ ds.all Char.isDigit then some ⟨mant, exp + digitsToNat ds⟩
        else none
    else none

def parseUnsignedDecimal (l : List Char) : Option DecValue :=
  let ip := l.takeWhile Char.isDigit
  match l.dropWhile Char.isDigit with
  | '.' :: r2 =>
    let fp := r2.takeWhile Char.isDigit
    if ip.isEmpty ∧ fp.isEmpty then none
    else
      parseExponentTail (r2.dropWhile Char.isDigit)
        (digitsToNat (ip ++ fp)) (-(fp.length : Int))
  | r1 =>
    if ip.isEmpty then none else parseExponentTail r1 (digitsToNat ip) 0

/-- Go `strconv.ParseFloat` as used by the evaluator: on a parse error Go
returns 0 together with the error, and the evaluator discards the error, so
unparseable values compare as 0.  Plain decimal and scientific literals are
modelled as exact decimal values (the float64 rounding, hex floats and
Inf/NaN forms are abstracted away; they cannot occur in the matched numeric
literals and only shift the comparison threshold for exotic field
values). -/
def goParseFloatOrZero (s : String) : DecValue :=
  (match s.data with
   | '+' :: r => parseUnsignedDecimal r
   | '-' :: r => (parseUnsignedDecimal r).map (fun q : DecValue => (⟨-q.num, q.exp⟩ : DecValue))
   | r => parseUnsignedDecimal r).getD ⟨0, 0⟩

/-- Go `strings.TrimPrefix(rule, "if ")`. -/
def goTrimIfKeyword (rule : String) : String :=
  if "if ".data.isPrefixOf rule.data then ⟨rule.data.drop 3⟩ else rule

/-- The rule text the patterns are matched against (after the `"if "`
strip and `TrimSpace` of lines 621-622). -/
def normalizedRule (rule : String) : List Char :=
  (trimSpace (goTrimIfKeyword rule)).data

/-- validation.evaluateCondition: try the seven patterns in the source's
fixed order, return the first match's comparison, and `false` when nothing
matches.  The return type `Bool` mirrors the Go signature: there is no
error path. -/
def evaluateCondition (rule : String) (fields : String → String) : Bool :=
  let r := normalizedRule rule
  match scanFind (matchEqLikeAt '=' '=') r with
  | some (f, v) => fields f == v
  | none =>
  match scanFind (matchEqLikeAt '!' '=') r with
  | some (f, v) => fields f != v
  | none =>
  match scanFind (matchNumCmpAt '>') r with
  | some (f, n) => decValueLt (goParseFloatOrZero n) (goParseFloatOrZero (fields f))
  | none =>
  match scanFind (matchNumCmpAt '<') r with
  | some (f, n) => decValueLt (goParseFloatOrZero (fields f)) (goParseFloatOrZero n)
  | none =>
  match scanFind (matchKeywordQuotedAt "starts_with".data) r with
  | some (f, p) => p.data.isPrefixOf (fields f).data
  | none =>
  match scanFind (matchKeywordAt "is_empty".data) r with
  | some f => fields f == ""
  | none =>
  match scanFind (matchKeywordAt "is_not_empty".data) r with
  | some f => fields f != ""
  | none => false

/-! ## Claim C5 -/

/-- C5: condition evaluation is a total boolean function (the embedding's
type `String → (String → String) → Bool` mirrors the Go signature, which
has no error return), and an expression that structurally matches none of
the seven supported patterns — after stripping an optional leading
`"if "` — evaluates to `false` for every field map. -/
theorem evaluateCondition_unmatched_is_false (rule : String) (fields : String → String)
    (h1 : scanFind (matchEqLikeAt '=' '=') (normalizedRule rule) = none)
    (h2 : scanFind (matchEqLikeAt '!' '=') (normalizedRule rule) = none)
    (h3 : scanFind (matchNumCmpAt '>') (normalizedRule rule) = none)
    (h4 : scanFind (matchNumCmpAt '<') (normalizedRule rule) = none)
    (h5 : scanFind (matchKeywordQuotedAt "starts_with".data) (normalizedRule rule) = none)
    (h6 : scanFind (matchKeywordAt "is_empty".data) (normalizedRule rule) = none)
    (h7 : scanFind (matchKeywordAt "is_not_empty".data) (normalizedRule rule) = none) :
    evaluateCondition rule fields = false := by
  rw [evaluateCondition]
  simp only [h1, h2, h3, h4, h5, h6, h7]

/-- C5 witness: a malformed expression (the documented-but-unimplemented
`contains` form, with a bare operand) matches none of the patterns and
evaluates to false. -/
theorem evaluateCondition_unmatched_is_false_witness :
    evaluateCondition "TransactionType includes PAYMENT" (fun _ => "") = false :=
  evaluateCondition_unmatched_is_false "TransactionType includes PAYMENT" (fun _ => "")
    (by decide) (by decide) (by decide) (by decide) (by decide) (by decide) (by decide)

/-! ## Validation engine (validation.ValidateField / ValidateLineItem)

The leaf data-type dispatch `validateDataType` (integer/float/date/boolean
parsing) is kept as an explicit function parameter `dtCheck`: it returns an
error message or "" exactly as the Go function does, and no claim below
depends on its behaviour, so every theorem quantifies over it. -/

/-- validation.ValidationError (RowNumber is the Go zero value 0 in every
construction the engine performs, as in the source). -/
structure ValidationError where
  Severity : String
  Field : String
  Value : String
  Rule : String
  Message : String
  TransactionID : Nat
  LineItemID : Nat
  RowNumber : Nat
deriving DecidableEq, Repr

/-- validation.ValidationContext (Go field names `FieldMapping`,
`Transaction`, `LineItem` are renamed to avoid clashing with their
types). -/
structure ValidationContext where
  FieldName : String
  Mapping : FieldMapping
  Txn : Transaction
  Item : LineItem
  AllFields : Row

/-- validation.ValidationOptions; `CustomValidators` is the Go map modelled
as a lookup function. -/
structure ValidationOptions where
  StopOnFirstError : Bool
  TreatWarningsAsErrors : Bool
  SkipOptionalValidation : Bool
  CustomValidators : String → Option (String → ValidationContext → String)

structure Validator where
  schema : Schema
  options : ValidationOptions

/-- validation.ValidateField: required check (returns immediately), empty
short-circuit, conditional-required check, max-length check, data-type
check. -/
def ValidateField (dtCheck : String → String → String) (value : String)
    (m : FieldMapping) (tx : Transaction) (li : LineItem) : List ValidationError :=
  if m.RequiredType = "required" ∧ value = "" then
    [⟨"error", m.OldHeader, value, "required",
      "Required field " ++ sq ++ m.XMLTag ++ sq ++ " is empty", tx.ID, li.ID, 0⟩]
  else if value = "" then
    []
  else
    (if m.RequiredType = "conditional" ∧ m.ConditionalRule ≠ "" then
      (if evaluateCondition m.ConditionalRule (lookupField li.Fields) ∧ value = "" then
        [⟨"error", m.OldHeader, value, "conditional_required",
          "Field " ++ sq ++ m.XMLTag ++ sq ++ " is required when: " ++ m.ConditionalRule,
          tx.ID, li.ID, 0⟩]
      else [])
    else []) ++
    (if 0 < m.MaxLength ∧ m.MaxLength < (value.length : Int) then
      [⟨"error", m.OldHeader, value, "max_length",
        "Value exceeds maximum length of " ++ toString m.MaxLength ++
        " characters (actual: " ++ toString value.length ++ ")",
        tx.ID, li.ID, 0⟩]
    else []) ++
    (if dtCheck value m.DataType ≠ "" then
      [⟨"error", m.OldHeader, value, "data_type", dtCheck value m.DataType,
        tx.ID, li.ID, 0⟩]
    else [])

/-- One iteration of the ValidateLineItem loop over a field-map entry:
skip fields absent from the schema, optionally skip optional fields, run
`ValidateField` and then any custom validator for the field. -/
def validateLineItemStep (dtCheck : String → String → String) (v : Validator)
    (tx : Transaction) (li : LineItem) (errs : List ValidationError)
    (kv : String × String) : List ValidationError :=
  match v.schema.GetFieldMapping kv.1 with
  | none => errs
  | some m =>
    if v.options.SkipOptionalValidation ∧ m.RequiredType = "optional" then errs
    else
      let errs1 := errs ++ ValidateField dtCheck kv.2 m tx li
      match v.options.CustomValidators kv.1 with
      | none => errs1
      | some cv =>
        if cv kv.2 ⟨kv.1, m, tx, li, li.Fields⟩ ≠ "" then
          errs1 ++ [⟨"error", kv.1, kv.2, "custom",
            cv kv.2 ⟨kv.1, m, tx, li, li.Fields⟩, tx.ID, li.ID, 0⟩]
        else errs1

/-- validation.ValidateLineItem: iterate the entries of the line item's
field map.  (Go map iteration order is unspecified; the entry-list order
stands for one admissible iteration order.) -/
def ValidateLineItem (dtCheck : String → String → String) (v : Validator)
    (tx : Transaction) (li : LineItem) : List ValidationError :=
  li.Fields.foldl (validateLineItemStep dtCheck v tx li) []

lemma validateField_field_eq (dtCheck : String → String → String) (value : String)
    (m : FieldMapping) (tx : Transaction) (li : LineItem) :
    ∀ e ∈ ValidateField dtCheck value m tx li, e.Field = m.OldHeader := by
  intro e he
  rw [ValidateField] at he
  split at he
  · simp at he; subst he; rfl
  · split at he
    · simp at he
    · simp only [List.mem_append] at he
      rcases he with (he | he) | he
      · split at he
        · split at he
          · simp at he; subst he; rfl
          · simp at he
        · simp at he
      · split at he
        · simp at he; subst he; rfl
        · simp at he
      · split at he
        · simp at he; subst he; rfl
        · simp at he

lemma validateLineItemStep_field (dtCheck : String → String → String) (v : Validator)
    (tx : Transaction) (li : LineItem) (errs : List ValidationError)
    (kv : String × String) (k : String)
    (hcons : ∀ kk m, v.schema.GetFieldMapping kk = some m → m.OldHeader = kk)
    (hkv : kv.1 ≠ k) (herrs : ∀ e ∈ errs, e.Field ≠ k) :
    ∀ e ∈ validateLineItemStep dtCheck v tx li errs kv, e.Field ≠ k := by
  intro e he
  rw [validateLineItemStep] at he
  split at he
  · exact herrs e he
  · rename_i m hm
    have hold : m.OldHeader = kv.1 := hcons kv.1 m hm
    split at he
    · exact herrs e he
    · split at he
      · simp only [List.mem_append] at he
        rcases he with he | he
        · exact herrs e he
        · rw [validateField_field_eq dtCheck kv.2 m tx li e he, hold]; exact hkv
      · rename_i cv hcv
        split at he
        · simp only [List.mem_append] at he
          rcases he with (he | he) | he
          · exact herrs e he
          · rw [validateField_field_eq dtCheck kv.2 m tx li e he, hold]; exact hkv
          · simp at he; subst he; exact hkv
        · simp only [List.mem_append] at he
          rcases he with he | he
          · exact herrs e he
          · rw [validateField_field_eq dtCheck kv.2 m tx li e he, hold]; exact hkv

/-! ## Claim C3 -/

/-- C3: for every field mapping with requirement "required" and an empty
value, `ValidateField` returns exactly one finding, with rule "required"
and severity "error" — in particular no `data_type`, `max_length` or
`conditional_required` finding is produced in that call.  Holds for every
data-type checker. -/
theorem required_empty_single_finding (dtCheck : String → String → String)
    (value : String) (m : FieldMapping) (tx : Transaction) (li : LineItem)
    (hreq : m.RequiredType = "required") (hempty : value = "") :
    (ValidateField dtCheck value m tx li).map (fun e => (e.Rule, e.Severity)) =
      [("required", "error")] := by
  rw [ValidateField, if_pos ⟨hreq, hempty⟩]
  rfl

/-- C3 witness: a concrete required mapping with an empty value. -/
theorem required_empty_single_finding_witness :
    (ValidateField (fun _ _ => "") ""
        ⟨"CheckNumber", "CheckNumber", "transaction", "numeric", 10, "required", "", "", 1⟩
        ⟨1, "A", []⟩ ⟨1, []⟩).map (fun e => (e.Rule, e.Severity)) =
      [("required", "error")] :=
  required_empty_single_finding (fun _ _ => "") ""
    ⟨"CheckNumber", "CheckNumber", "transaction", "numeric", 10, "required", "", "", 1⟩
    ⟨1, "A", []⟩ ⟨1, []⟩ rfl rfl

/-! ## Claim C4 -/

/-- C4: `ValidateField` never emits a finding with rule
"conditional_required": the step-3 branch only fires when the value is
empty, but every empty value already returned at step 1 or step 2, so the
branch is unreachable.  Holds for every data-type checker. -/
theorem conditional_required_unreachable (dtCheck : String → String → String)
    (value : String) (m : FieldMapping) (tx : Transaction) (li : LineItem) :
    ∀ e ∈ ValidateField dtCheck value m tx li, e.Rule ≠ "conditional_required" := by
  intro e he
  rw [ValidateField] at he
  split at he
  · simp at he; subst he; simp
  · rename_i hne
    split at he
    · simp at he
    · rename_i hval
      simp only [List.mem_append] at he
      rcases he with (he | he) | he
      · split at he
        · rename_i hcond
          rw [if_neg] at he
          · simp at he
          · intro hcontra
            exact hval hcontra.2
        · simp at he
      · split at he <;> simp at he
        subst he; simp
      · split at he <;> simp at he
        subst he; simp

/-- C4 witness: a conditional mapping whose rule holds for the line item's
fields, with a non-empty value — the result still contains no
`conditional_required` finding. -/
theorem conditional_required_unreachable_witness :
    (ValidateField (fun _ _ => "") "x"
        ⟨"Memo", "Memo", "lineItem", "string", 0, "conditional", "Type is_not_empty", "", 2⟩
        ⟨1, "A", []⟩ ⟨1, [("Type", "PAYMENT"), ("Memo", "x")]⟩).all
      (fun e => decide (e.Rule ≠ "conditional_required")) = true := by
  rw [List.all_eq_true]
  intro e he
  exact decide_eq_true
    (conditional_required_unreachable (fun _ _ => "") "x"
      ⟨"Memo", "Memo", "lineItem", "string", 0, "conditional", "Type is_not_empty", "", 2⟩
      ⟨1, "A", []⟩ ⟨1, [("Type", "PAYMENT"), ("Memo", "x")]⟩ e he)

/-! ## Claim C9 -/

/-- C9: `ValidateLineItem` iterates only over the keys present in the line
item's field map; under the schema invariant that every mapping is stored
under its own `OldHeader`, a source key absent from the field map yields no
finding at all for that field — in particular a required field that is
missing (rather than present-but-empty) produces no "required" finding. -/
theorem absent_field_produces_no_finding (dtCheck : String → String → String)
    (v : Validator) (tx : Transaction) (li : LineItem) (k : String)
    (hcons : ∀ kk m, v.schema.GetFieldMapping kk = some m → m.OldHeader = kk)
    (habsent : k ∉ li.Fields.map Prod.fst) :
    ∀ e ∈ ValidateLineItem dtCheck v tx li, e.Field ≠ k := by
  rw [ValidateLineItem]
  have main : ∀ (kvs : List (String × String)) (errs : List ValidationError),
      (∀ kv ∈ kvs, kv.1 ≠ k) → (∀ e ∈ errs, e.Field ≠ k) →
      ∀ e ∈ kvs.foldl (validateLineItemStep dtCheck v tx li) errs, e.Field ≠ k := by
    intro kvs
    induction kvs with
    | nil => intro errs _ herrs e he; exact herrs e he
    | cons kv rest ih =>
      intro errs hkeys herrs e he
      rw [List.foldl_cons] at he
      refine ih _ (fun kv' h => hkeys kv' (List.mem_cons_of_mem _ h)) ?_ e he
      exact validateLineItemStep_field dtCheck v tx li errs kv k hcons
        (hkeys kv (List.mem_cons_self _ _)) herrs
  refine main li.Fields [] ?_ (by simp)
  intro kv hkv hcontra
  exact habsent (hcontra ▸ List.mem_map_of_mem Prod.fst hkv)

/-- A schema holding a single required mapping for source key "A". -/
def schemaRequiredA : Schema where
  FieldMappings := fun kk =>
    if kk = "A" then
      some ⟨"A", "TagA", "lineItem", "string", 0, "required", "", "", 1⟩
    else none
  TransactionFields := []
  LineItemFields := ["A"]
  CashbookFields := []
  XMLRootElement := "cashbook"
  XMLTransactionElement := "transaction"
  XMLLineItemElement := "lineItem"

def validatorRequiredA : Validator where
  schema := schemaRequiredA
  options :=
    { StopOnFirstError := false
      TreatWarningsAsErrors := false
      SkipOptionalValidation := false
      CustomValidators := fun _ => none }

/-- C9 witness: the required field "A" is entirely absent from the line
item's field map (which only holds key "B"), and validation emits no
finding whose field is "A". -/
theorem absent_field_produces_no_finding_witness :
    (ValidateLineItem (fun _ _ => "") validatorRequiredA ⟨1, "g", [⟨1, [("B", "x")]⟩]⟩
        ⟨1, [("B", "x")]⟩).all (fun e => decide (e.Field ≠ "A")) = true := by
  rw [List.all_eq_true]
  intro e he
  refine decide_eq_true
    (absent_field_produces_no_finding (fun _ _ => "") validatorRequiredA
      ⟨1, "g", [⟨1, [("B", "x")]⟩]⟩ ⟨1, [("B", "x")]⟩ "A" ?_ (by decide) e he)
  intro kk m h
  by_cases hkk : kk = "A"
  · subst hkk
    simp [validatorRequiredA, schemaRequiredA, Schema.GetFieldMapping] at h
    rw [← h]
  · simp [validatorRequiredA, schemaRequiredA, Schema.GetFieldMapping, hkk] at h

/-! ## Transformation engine (converter ApplyTransformation)

The regex, date and float-formatting cases delegate to Go library routines
(`regexp`, `time.Parse`/`Format`, `fmt.Sprintf("%.Nf")`) that have no
reasonable pure embedding; they are collected in `ExternalOps` and every
theorem quantifies over them.  No claim below depends on their
behaviour. -/

/-- External library routines used by some transformation actions.
`regexReplaceAll pat repl v` is `none` exactly when the pattern does not
compile; `formatDate inFmt outFmt v` is `none` exactly when parsing fails;
`formatFloat d v` is `none` exactly when `v` is not a number;
`titleCase` is Go `strings.Title`. -/
structure ExternalOps where
  regexReplaceAll : String → String → String → Option String
  formatDate : String → String → String → Option String
  formatFloat : Nat → String → Option String
  titleCase : String → String

/-- A trivial instantiation of the external routines, used for concrete
evaluations of actions that do not touch them. -/
def trivialOps : ExternalOps where
  regexReplaceAll := fun _ _ _ => none
  formatDate := fun _ _ _ => none
  formatFloat := fun _ _ => none
  titleCase := id

/-- Go `strings.ReplaceAll` for a non-empty search string: leftmost,
non-overlapping.  (The call site returns early on an empty `Find`, so the
empty-search behaviour of the Go function is never exercised; the wrapper
guards it.) -/
def replaceAllAux (find repl : List Char) : List Char → List Char
  | [] => []
  | c :: rest =>
    if find.isPrefixOf (c :: rest) then
      repl ++ replaceAllAux find repl (rest.drop (find.length - 1))
    else c :: replaceAllAux find repl rest
  termination_by l => l.length
  decreasing_by
  all_goals simp [List.length_drop] <;> omega

def replaceAll (s find repl : String) : String :=
  if find.data.isEmpty then s else ⟨replaceAllAux find.data repl.data s.data⟩

/-- The regex `\s+` → `" "` replacement of `normalize_whitespace`: collapse
every maximal run of RE2 whitespace to a single space. -/
def collapseWs : List Char → List Char
  | [] => []
  | c :: rest =>
    if reIsSpace c then ' ' :: collapseWs (rest.dropWhile reIsSpace)
    else c :: collapseWs rest
  termination_by l => l.length
  decreasing_by
  all_goals simp [Nat.lt_succ_iff]
  all_goals exact (List.dropWhile_sublist _).length_le

/-- converter ApplyTransformation: the action dispatch of the transformer
module (part_003 lines 1559-1952).  `extract_digits`, `extract_letters`
and `remove_special_chars` keep exactly the characters their character
classes admit (equivalent to the source's find-all-and-join / remove-
complement regexes); `allFields` is the line item's field map. -/
def ApplyTransformation (ops : ExternalOps) (value : String)
    (action : TransformationAction) (allFields : Row) : Except String String :=
  match action.Type' with
  | "prepend_string" => .ok (action.Value ++ value)
  | "append_string" => .ok (value ++ action.Value)
  | "trim" => .ok (trimSpace value)
  | "trim_left" =>
    if action.Value ≠ "" then .ok (trimLeftCutset value action.Value)
    else .ok (trimLeftCutset value " \t\n\r")
  | "trim_right" =>
    if action.Value ≠ "" then .ok (trimRightCutset value action.Value)
    else .ok (trimRightCutset value " \t\n\r")
  | "uppercase" => .ok (goToUpper value)
  | "lowercase" => .ok (goToLower value)
  | "title_case" => .ok (ops.titleCase (goToLower value))
  | "replace" =>
    if action.Find = "" then .ok value
    else .ok (replaceAll value action.Find action.Value)
  | "regex_replace" =>
    if action.Find = "" then .ok value
    else
      match ops.regexReplaceAll action.Find action.Value value with
      | some r => .ok r
      | none => .error "invalid regex pattern"
  | "substring" =>
    match action.Value.splitOn "," with
    | [p0, p1] =>
      let start0 := (goAtoi (trimSpace p0)).getD 0
      let end0 := (goAtoi (trimSpace p1)).getD 0
      let start1 := if start0 < 0 then 0 else start0
      let end1 := if (value.length : Int) < end0 then (value.length : Int) else end0
      if end1 ≤ start1 ∨ (value.length : Int) ≤ start1 then .ok ""
      else .ok ⟨(value.data.take end1.toNat).drop start1.toNat⟩
    | _ => .ok value
  | "pad_zeros_to_length" =>
    match goAtoi action.Value with
    | none => .ok value
    | some n => if n ≤ 0 then .ok value else .ok (PadLeft value n '0')
  | "pad_spaces_to_length" =>
    match goAtoi action.Value with
    | none => .ok value
    | some n => if n ≤ 0 then .ok value else .ok (PadRight value n ' ')
  | "ensure_length" =>
    match goAtoi action.Value with
    | none => .ok value
    | some n =>
      if n ≤ 0 then .ok value
      else if n < (value.length : Int) then .ok ⟨value.data.take n.toNat⟩
      else .ok (PadLeft value n '0')
  | "format_number" =>
    match goAtoi action.Value with
    | none => .ok value
    | some d =>
      if d < 0 then .ok value
      else
        match ops.formatFloat d.toNat value with
        | some r => .ok r
        | none => .ok value
  | "remove_leading_zeros" =>
    if trimLeftCutset value "0" = "" then .ok "0" else .ok (trimLeftCutset value "0")
  | "format_date" =>
    match action.Value.splitOn "|" with
    | [p0, p1] =>
      match ops.formatDate (trimSpace p0) (trimSpace p1) value with
      | some r => .ok r
      | none => .ok value
    | _ => .ok value
  | "lookup" =>
    match action.LookupTable.lookup value with
    | some r => .ok r
    | none => .ok value
  | "lookup_with_default" =>
    match action.LookupTable.lookup value with
    | some r => .ok r
    | none => .ok action.Value
  | "conditional" => .ok value
  | "if_empty_use_default" =>
    if trimSpace value = "" then .ok action.Value else .ok value
  | "if_empty_use_field" =>
    if trimSpace value = "" then
      match allFields.lookup action.Value with
      | some o => .ok o
      | none => .ok value
    else .ok value
  | "extract_digits" => .ok ⟨value.data.filter Char.isDigit⟩
  | "extract_letters" => .ok ⟨value.data.filter Char.isAlpha⟩
  | "remove_special_chars" => .ok ⟨value.data.filter Char.isAlphanum⟩
  | "normalize_whitespace" => .ok (trimSpace ⟨collapseWs value.data⟩)
  | "format_policy_number" => .ok value
  | "format_account_code" => .ok value
  | "format_currency" =>
    match ops.formatFloat 2 value with
    | some r => .ok r
    | none => .ok value
  | _ => .error ("unknown transformation type: " ++ action.Type')

/-! ## Claim C6 -/

/-- C6: for every value and every parameter string parsing to a target
length n > 0, the `ensure_length` action truncates to the first n
characters when the value is longer than n, and otherwise left-pads with
zeros to length n.  Holds for every instantiation of the external
routines and every field map. -/
theorem ensure_length_truncates_or_pads (ops : ExternalOps) (value s : String)
    (n : Int) (allFields : Row) (hparse : goAtoi s = some n) (hpos : 0 < n) :
    ApplyTransformation ops value ⟨"ensure_length", s, "", "", []⟩ allFields =
      .ok (if n < (value.length : Int) then (⟨value.data.take n.toNat⟩ : String)
           else PadLeft value n '0') := by
  rw [ApplyTransformation]
  simp only [hparse]
  rw [if_neg (by omega)]
  by_cases hlen : n < (value.length : Int)
  · rw [if_pos hlen, if_pos hlen]
  · rw [if_neg hlen, if_neg hlen]

/-- C6 witness: `ensure_length(10)` maps "12345678901234" to "1234567890"
and "123" to "0000000123". -/
theorem ensure_length_truncates_or_pads_witness :
    ApplyTransformation trivialOps "12345678901234" ⟨"ensure_length", "10", "", "", []⟩ []
        = .ok "1234567890" ∧
    ApplyTransformation trivialOps "123" ⟨"ensure_length", "10", "", "", []⟩ []
        = .ok "0000000123" := by
  constructor
  · rw [ensure_length_truncates_or_pads trivialOps "12345678901234" "10" 10 []
      (by decide) (by decide)]
    rfl
  · rw [ensure_length_truncates_or_pads trivialOps "123" "10" 10 []
      (by decide) (by decide)]
    rfl

/-! ## Claim C7 -/

/-- C7: XML escaping replaces exactly the five reserved characters with
their entity references and leaves every other character unchanged; the
serializer applies the same `escapeXML` to element text and to attribute
values (exhibited on a leaf element); and escaping round-trips: decoding
the five predefined entities recovers every original string. -/
theorem escapeXML_exact_and_roundtrips :
    (∀ s : String, unescapeXML (escapeXML s) = s) ∧
    escapeXML "&" = "&amp;" ∧ escapeXML "<" = "&lt;" ∧ escapeXML ">" = "&gt;" ∧
    escapeXML "\"" = "&quot;" ∧ escapeXML "\x27" = "&apos;" ∧
    (∀ c : Char, c ≠ '&' → c ≠ '<' → c ≠ '>' → c ≠ '"' → c ≠ apos →
      escapeXMLChar c = [c]) ∧
    (∀ (an av : String), attrText [(an, av)] = " " ++ an ++ "=\"" ++ escapeXML av ++ "\"") ∧
    (∀ (ind name an av v : String) (lvl : Nat), v ≠ "" →
      writeElement ind (.mk name [(an, av)] v []) lvl =
        String.join (List.replicate lvl ind) ++ "<" ++ name ++
          attrText [(an, av)] ++ ">" ++ escapeXML v ++ "</" ++ name ++ ">\n") := by
  refine ⟨?_, rfl, rfl, rfl, rfl, rfl, ?_, fun an av => rfl, ?_⟩
  · intro s
    simp [escapeXML, unescapeXML, unescape_escape_list]
  · intro c h1 h2 h3 h4 h5
    simp [escapeXMLChar, h1, h2, h3, h4, h5]
  · intro ind name an av v lvl hv
    rw [writeElement]
    rw [if_neg (by simp [hv])]
    rw [if_pos hv]

/-- C7 witness: a concrete string containing all five reserved characters
round-trips, and a concrete leaf element is serialized with the escaped
attribute value and escaped text. -/
theorem escapeXML_exact_and_roundtrips_witness :
    unescapeXML (escapeXML "a<b&c \"d\x27 >e") = "a<b&c \"d\x27 >e" ∧
    writeElement "  " (.mk "t" [("n", "1")] "x<y" []) 1 =
      "  <t n=\"1\">x&lt;y</t>\n" := by
  refine ⟨escapeXML_exact_and_roundtrips.1 _, ?_⟩
  rw [escapeXML_exact_and_roundtrips.2.2.2.2.2.2.2.2 "  " "t" "n" "1" "x<y" 1 (by decide)]
  rfl

/-! ## Claim C8 -/

/-- C8: a schema-mapped field is emitted as a child element exactly when
its value is non-empty or its mapping's requirement is "required" (the
`filterMap` characterization of the emission loop); in particular a
required field with an empty value is still emitted; and the children of
the built line-item and transaction elements are the static fields
followed by exactly this schema emission (for transactions, sourced from
the first line item when one exists). -/
theorem field_emitted_iff_nonempty_or_required :
    (∀ (get : String → Option FieldMapping) (fields : String → String)
        (hs : List String),
      emitFields get fields hs = hs.filterMap (fun h => (get h).bind (fun m =>
        if fields h ≠ "" ∨ m.RequiredType = "required" then
          some (createSimpleElement m.XMLTag (fields h))
        else none))) ∧
    (∀ (get : String → Option FieldMapping) (fields : String → String)
        (hs : List String) (h : String) (m : FieldMapping),
      h ∈ hs → get h = some m → m.RequiredType = "required" →
      createSimpleElement m.XMLTag (fields h) ∈ emitFields get fields hs) ∧
    (∀ (li : LineItem) (schema : Schema) (dept : DepartmentConfig)
        (opts : GenerateOptions) (ctr : Nat),
      (buildLineItemElement li schema dept opts ctr).children =
        staticElems "lineitem" dept ++
          emitFields schema.GetFieldMapping (lookupField li.Fields)
            (getOrderedFields schema.LineItemFields schema)) ∧
    (∀ (t : Transaction) (schema : Schema) (dept : DepartmentConfig)
        (opts : GenerateOptions) (ctr : Nat),
      (buildTransactionElement t schema dept opts ctr).1.children =
        staticElems "transaction" dept ++ transactionSchemaElems t schema ++
          (buildLineItemsLoop schema dept opts t.LineItems ctr).1) ∧
    (∀ (t : Transaction) (first : LineItem) (rest : List LineItem) (schema : Schema),
      t.LineItems = first :: rest →
      transactionSchemaElems t schema =
        emitFields schema.GetFieldMapping (lookupField first.Fields)
          (getOrderedFields schema.TransactionFields schema)) := by
  have hchar : ∀ (get : String → Option FieldMapping) (fields : String → String)
      (hs : List String),
      emitFields get fields hs = hs.filterMap (fun h => (get h).bind (fun m =>
        if fields h ≠ "" ∨ m.RequiredType = "required" then
          some (createSimpleElement m.XMLTag (fields h))
        else none)) := by
    intro get fields hs
    induction hs with
    | nil => rfl
    | cons h hs ih =>
      rcases hm : get h with _ | m
      · simp [emitFields, List.filterMap_cons, hm, ih]
      · simp only [emitFields, List.filterMap_cons, hm, Option.some_bind]
        by_cases hcond : fields h ≠ "" ∨ m.RequiredType = "required"
        · rw [if_pos hcond, if_pos hcond, ih]
        · rw [if_neg hcond, if_neg hcond, ih]
  refine ⟨hchar, ?_, ?_, ?_, ?_⟩
  · intro get fields hs h m hh hm hreq
    rw [hchar]
    refine List.mem_filterMap.2 ⟨h, hh, ?_⟩
    rw [hm, Option.some_bind, if_pos (Or.inr hreq)]
  · intro li schema dept opts ctr; rfl
  · intro t schema dept opts ctr; rfl
  · intro t first rest schema hli
    rw [transactionSchemaElems, hli]

/-- C8 witness: the required mapping for "A" with an empty looked-up value
is still emitted as an (empty) element. -/
theorem field_emitted_iff_nonempty_or_required_witness :
    createSimpleElement "TagA" "" ∈
      emitFields schemaRequiredA.GetFieldMapping (fun _ => "") ["A"] :=
  field_emitted_iff_nonempty_or_required.2.1
    schemaRequiredA.GetFieldMapping (fun _ => "") ["A"] "A"
    ⟨"A", "TagA", "lineItem", "string", 0, "required", "", "", 1⟩
    (by decide) rfl rfl

/-! ## CSV data-row extraction (csvparser.extractDataRows) -/

/-- config.CSVSettings (the fields the extraction reads; a negative
`HeaderRows` configuration is not modelled). -/
structure CSVSettings where
  Delimiter : String
  HeaderRows : Nat
  DataStartRow : Int
  Encoding : String
  QuoteChar : String
  EscapeChar : String

/-- The start index computed by extractDataRows (lines 329-333):
`DataStartRow` is 1-indexed; a non-positive configured value falls back to
`HeaderRows`. -/
def dataStartIndex (st : CSVSettings) : Nat :=
  if st.DataStartRow - 1 < 0 then st.HeaderRows else (st.DataStartRow - 1).toNat

/-- csvparser.isRowEmpty: every cell is empty after trimming. -/
def isRowEmpty (row : List String) : Bool :=
  row.all (fun cell => trimSpace cell = "")

/-- The row-to-map conversion of extractDataRows (lines 352-363): one entry
per header, whitespace-trimmed cell value, "" for columns missing from a
short row.  The Go map is modelled as a lookup function; as in a Go map, a
later duplicate header overwrites an earlier one. -/
def rowToMapAux (row : List String) : Nat → List String → String → Option String
  | _, [], _ => none
  | i, h :: hs, k =>
    match rowToMapAux row (i + 1) hs k with
    | some v => some v
    | none =>
      if k = h then
        some (if i < row.length then trimSpace (row.getD i "") else "")
      else none

def rowToMap (headers : List String) (row : List String) : String → Option String :=
  rowToMapAux row 0 headers

/-- The row loop of extractDataRows (lines 343-366): skip empty rows,
convert the rest. -/
def extractLoop (headers : List String) : List (List String) → List (String → Option String)
  | [] => []
  | row :: rest =>
    if isRowEmpty row then extractLoop headers rest
    else rowToMap headers row :: extractLoop headers rest

/-- csvparser.extractDataRows. -/
def extractDataRows (allRows : List (List String)) (headers : List String)
    (st : CSVSettings) : List (String → Option String) :=
  let startIndex := dataStartIndex st
  if allRows.length ≤ startIndex then []
  else extractLoop headers (allRows.drop startIndex)

lemma extractLoop_eq_filter_map (headers : List String) (rows : List (List String)) :
    extractLoop headers rows =
      (rows.filter (fun r => !(isRowEmpty r))).map (rowToMap headers) := by
  induction rows with
  | nil => rfl
  | cons row rest ih =>
    rw [extractLoop, List.filter_cons]
    by_cases hr : isRowEmpty row
    · simp [hr, ih]
    · simp [hr, ih]

lemma rowToMapAux_isSome (row : List String) (hs : List String) :
    ∀ (i : Nat) (k : String), (rowToMapAux row i hs k).isSome ↔ k ∈ hs := by
  induction hs with
  | nil => intro i k; simp [rowToMapAux]
  | cons h hs ih =>
    intro i k
    rw [rowToMapAux]
    rcases ht : rowToMapAux row (i + 1) hs k with _ | v
    · have hknot : k ∉ hs := by
        intro hmem
        have hcontra := (ih (i + 1) k).2 hmem
        rw [ht] at hcontra
        simp at hcontra
      by_cases hk : k = h
      · simp [hk]
      · simp [hk, hknot]
    · have hmem : k ∈ hs := (ih (i + 1) k).1 (by rw [ht]; rfl)
      simp [List.mem_cons, hmem]

lemma rowToMapAux_nodup_value (row : List String) (hs : List String) :
    ∀ i : Nat, hs.Nodup → ∀ h ∈ hs,
      rowToMapAux row i hs h =
        some (if i + hs.indexOf h < row.length then
          trimSpace (row.getD (i + hs.indexOf h) "") else "") := by
  induction hs with
  | nil => intro i _ h hmem; simp at hmem
  | cons h0 hs ih =>
    intro i hnd h hmem
    rw [rowToMapAux]
    rcases List.mem_cons.1 hmem with rfl | hmem2
    · have habs : h ∉ hs := (List.nodup_cons.1 hnd).1
      have : rowToMapAux row (i + 1) hs h = none := by
        rcases hq : rowToMapAux row (i + 1) hs h with _ | v
        · rfl
        · exact absurd ((rowToMapAux_isSome row hs (i + 1) h).1 (by simp [hq])) habs
      rw [this, if_pos rfl, List.indexOf_cons_self]
      simp
    · have hne : h ≠ h0 := by
        rintro rfl
        exact (List.nodup_cons.1 hnd).1 hmem2
      rw [ih (i + 1) (List.nodup_cons.1 hnd).2 h hmem2]
      rw [List.indexOf_cons_ne _ (fun hcontra => hne hcontra.symm)]
      have harith : i + 1 + List.indexOf h hs = i + (List.indexOf h hs + 1) := by omega
      rw [harith]

/-! ## Claim C10 -/

/-- C10: data-row extraction drops exactly the rows whose cells are all
empty or whitespace-only, and converts every retained row to a map defined
on exactly the header keys, with whitespace-trimmed values and "" for
columns missing from a short row. -/
theorem extract_rows_skip_empty_and_map_headers :
    (∀ (allRows : List (List String)) (headers : List String) (st : CSVSettings),
      extractDataRows allRows headers st =
        ((allRows.drop (dataStartIndex st)).filter (fun r => !(isRowEmpty r))).map
          (rowToMap headers)) ∧
    (∀ (headers row : List String) (k : String),
      (rowToMap headers row k).isSome ↔ k ∈ headers) ∧
    (∀ (headers row : List String), headers.Nodup → ∀ h ∈ headers,
      rowToMap headers row h =
        some (if headers.indexOf h < row.length then
          trimSpace (row.getD (headers.indexOf h) "") else "")) := by
  refine ⟨?_, ?_, ?_⟩
  · intro allRows headers st
    rw [extractDataRows]
    by_cases hlen : allRows.length ≤ dataStartIndex st
    · rw [if_pos hlen, List.drop_of_length_le hlen]
      rfl
    · rw [if_neg hlen, extractLoop_eq_filter_map]
  · intro headers row k
    exact rowToMapAux_isSome row headers 0 k
  · intro headers row hnd h hmem
    have := rowToMapAux_nodup_value row headers 0 hnd h hmem
    simpa [rowToMap] using this

/-- C10 witness: header row plus three data rows, one of them
whitespace-only (skipped); the retained first row is trimmed, its missing
second column is "", and a non-header key is absent from the map. -/
theorem extract_rows_skip_empty_and_map_headers_witness :
    (extractDataRows [["h1", "h2"], [" a "], ["  ", ""], ["b", "c"]]
        ["h1", "h2"] ⟨",", 1, 2, "UTF-8", "\"", "\""⟩).length = 2 ∧
    rowToMap ["h1", "h2"] [" a "] "h1" = some "a" ∧
    rowToMap ["h1", "h2"] [" a "] "h2" = some "" ∧
    (rowToMap ["h1", "h2"] [" a "] "x").isSome = false := by
  obtain ⟨hmain, hsome, hval⟩ := extract_rows_skip_empty_and_map_headers
  refine ⟨?_, ?_, ?_, ?_⟩
  · rw [hmain]
    rw [List.length_map]
    decide
  · rw [hval ["h1", "h2"] [" a "] (by decide) "h1" (by decide)]
    rfl
  · rw [hval ["h1", "h2"] [" a "] (by decide) "h2" (by decide)]
    rfl
  · have := (hsome ["h1", "h2"] [" a "] "x").not.2 (by decide)
    simpa using this

end CsvToXml
